import Mathlib

/-!
Verification of the rule-evaluation engine of the MSC-final-project-code
repository (a React/TypeScript visual rule editor).  The engine lives in
`src/App.tsx` (`evaluateCondition`, `evaluateRule` with its inner
`evaluateNode` walker), `src/pages/Editor.tsx` (`validateRule`,
`generateNaturalLanguage`) and
`src/components/editor/NaturalLanguagePreview.tsx`
(`generateNaturalLanguage`).

The JavaScript dynamic values that flow through the engine are modelled by
`JSVal`.  JavaScript numbers are modelled as `Option DecNum`, an exact
decimal fraction `mant / 10 ^ exp`, with `none` playing the role of
`NaN` (exact decimal arithmetic instead of IEEE-754 doubles; the engine
only parses decimal literals and compares them, so no rounding behaviour
is observable at the granularity of the statements proved here; the
infinities and hex/exponent literal forms are not modelled, and none of
the theorems below depend on them).
-/

namespace RuleEngine

/-- An exact decimal number, denoting the rational `mant / 10 ^ exp`.
The engine never does arithmetic on numbers — it only parses decimal
literals and compares — so this exact form models the reachable
JavaScript doubles faithfully. -/
structure DecNum where
  mant : Int
  exp : Nat
deriving DecidableEq, Repr

/-- Power of ten, as an integer. -/
def pow10 : Nat → Int
  | 0 => 1
  | n + 1 => 10 * pow10 n

/-- A JavaScript value as it occurs in the engine: `undefined`, a boolean,
a number (`none` = `NaN`), or a string. -/
inductive JSVal where
  | vUndefined : JSVal
  | vBool : Bool → JSVal
  | vNum : Option DecNum → JSVal
  | vStr : String → JSVal
deriving DecidableEq, Repr

/-- Digits-to-natural accumulator (the usual positional reading). -/
def digitsToNat (ds : List Char) : Nat :=
  ds.foldl (fun a c => a * 10 + (c.toNat - 48)) 0

/-- Consume an optional leading sign; returns (negative?, rest). -/
def parseSign : List Char → Bool × List Char
  | '-' :: r => (true, r)
  | '+' :: r => (false, r)
  | cs => (false, cs)

/-- Longest decimal-literal prefix `[+-]? digits [. digits]?` of a
character list: its rational value and the unconsumed rest, or `none`
when no digit is present (JavaScript `NaN`). -/
def parseDecimal (cs : List Char) : Option (DecNum × List Char) :=
  let sign := parseSign cs
  let intDs := sign.2.takeWhile Char.isDigit
  let cs2 := sign.2.drop intDs.length
  let fracPart :=
    match cs2 with
    | '.' :: r => (r.takeWhile Char.isDigit, r.drop (r.takeWhile Char.isDigit).length)
    | _ => (([] : List Char), cs2)
  if intDs.isEmpty && fracPart.1.isEmpty then none
  else
    let mag : Int :=
      (digitsToNat intDs : Int) * pow10 fracPart.1.length + (digitsToNat fracPart.1 : Int)
    some (⟨if sign.1 then -mag else mag, fracPart.1.length⟩, fracPart.2)

/-- JavaScript `parseFloat` on a string: skip leading whitespace, read the
longest decimal-literal prefix, `NaN` (`none`) when there is none. -/
def parseFloatStr (s : String) : Option DecNum :=
  match parseDecimal (s.toList.dropWhile Char.isWhitespace) with
  | some p => some p.1
  | none => none

/-- JavaScript `ToNumber` on a string (used by loose equality `==`):
after trimming whitespace the whole remainder must be a decimal literal;
the empty string converts to `0`, anything else to `NaN` (`none`). -/
def toNumberStr (s : String) : Option DecNum :=
  let cs := ((s.toList.dropWhile Char.isWhitespace).reverse.dropWhile Char.isWhitespace).reverse
  if cs.isEmpty then some ⟨0, 0⟩
  else
    match parseDecimal cs with
    | some (q, []) => some q
    | _ => none

/-- JavaScript `parseFloat(x)` for an engine value: a number value
round-trips through its string form, `true`/`false`/`undefined`
stringify to non-numerals and give `NaN`, a string is parsed. -/
def jsParseFloat : JSVal → Option DecNum
  | .vNum n => n
  | .vStr s => parseFloatStr s
  | .vBool _ => none
  | .vUndefined => none

/-- JavaScript truthiness of an engine value. -/
def jsTruthy : JSVal → Bool
  | .vUndefined => false
  | .vBool b => b
  | .vNum none => false
  | .vNum (some q) => decide (q.mant ≠ 0)
  | .vStr s => decide (s ≠ "")

/-- Number equality with `NaN` unequal to everything (JavaScript `==` and
`===` on two numbers); decimal fractions are compared by
cross-multiplication. -/
def numEqB : Option DecNum → Option DecNum → Bool
  | some x, some y => decide (x.mant * pow10 y.exp = y.mant * pow10 x.exp)
  | _, _ => false

/-- Number comparison `>`; any `NaN` side makes it false. -/
def numGtB : Option DecNum → Option DecNum → Bool
  | some x, some y => decide (y.mant * pow10 x.exp < x.mant * pow10 y.exp)
  | _, _ => false

/-- Number comparison `<`; any `NaN` side makes it false. -/
def numLtB : Option DecNum → Option DecNum → Bool
  | some x, some y => decide (x.mant * pow10 y.exp < y.mant * pow10 x.exp)
  | _, _ => false

/-- Number comparison `>=`; any `NaN` side makes it false. -/
def numGeB : Option DecNum → Option DecNum → Bool
  | some x, some y => decide (y.mant * pow10 x.exp ≤ x.mant * pow10 y.exp)
  | _, _ => false

/-- Number comparison `<=`; any `NaN` side makes it false. -/
def numLeB : Option DecNum → Option DecNum → Bool
  | some x, some y => decide (x.mant * pow10 y.exp ≤ y.mant * pow10 x.exp)
  | _, _ => false

/-- A boolean under `ToNumber` (used when `==` meets a boolean). -/
def boolToNum (b : Bool) : Option DecNum :=
  some ⟨if b then 1 else 0, 0⟩

/-- JavaScript loose equality `==` restricted to the value forms the
engine can see: same-type compare directly; number vs string converts the
string with `ToNumber`; a boolean is first converted to a number;
`undefined` equals only `undefined` (`null` never reaches the engine). -/
def jsLooseEq : JSVal → JSVal → Bool
  | .vUndefined, .vUndefined => true
  | .vUndefined, _ => false
  | _, .vUndefined => false
  | .vNum a, .vNum b => numEqB a b
  | .vStr s, .vStr t => decide (s = t)
  | .vBool a, .vBool b => decide (a = b)
  | .vNum a, .vStr s => numEqB a (toNumberStr s)
  | .vStr s, .vNum a => numEqB (toNumberStr s) a
  | .vBool b, .vNum a => numEqB (boolToNum b) a
  | .vNum a, .vBool b => numEqB a (boolToNum b)
  | .vBool b, .vStr s => numEqB (boolToNum b) (toNumberStr s)
  | .vStr s, .vBool b => numEqB (toNumberStr s) (boolToNum b)

/-- JavaScript strict equality `===`: same type and same value, with
`NaN` never equal to itself. -/
def jsStrictEq : JSVal → JSVal → Bool
  | .vUndefined, .vUndefined => true
  | .vNum a, .vNum b => numEqB a b
  | .vStr s, .vStr t => decide (s = t)
  | .vBool a, .vBool b => decide (a = b)
  | _, _ => false

/-- The per-node payload (`node.data` in the source).  The source stores
it as a dynamic record; here every field the engine ever probes is a
component, with `""` (respectively `JSVal.vUndefined` for `value`)
standing for an absent — and in JavaScript falsy — field.  The source
field `variable` is called `varName` (`variable` is reserved in Lean). -/
structure NodeData where
  field : String
  varName : String
  operator : String
  value : JSVal
  operatorType : String
  actionType : String
  target : String
  parameters : String
  label : String
deriving DecidableEq, Repr

/-- A graph node: `{id, type, data}` with `type` one of
`"condition" | "operator" | "action"`. -/
structure Node where
  id : String
  type : String
  data : NodeData
deriving DecidableEq, Repr

/-- A directed edge `{id, source, target}`. -/
structure Edge where
  id : String
  source : String
  target : String
deriving DecidableEq, Repr

/-- The part of a saved rule the engine reads: the node and edge arrays. -/
structure Rule where
  nodes : List Node
  edges : List Edge
deriving DecidableEq, Repr

/-- Payload of a condition node (other fields absent). -/
def condData (f op : String) (v : JSVal) : NodeData :=
  ⟨f, "", op, v, "", "", "", "", ""⟩

/-- Payload of an operator node (other fields absent). -/
def opData (t : String) : NodeData :=
  ⟨"", "", "", JSVal.vUndefined, t, "", "", "", ""⟩

/-- Payload of an action node (other fields absent). -/
def actData (ty tgt : String) : NodeData :=
  ⟨"", "", "", JSVal.vUndefined, "", ty, tgt, "", ""⟩

/-- Source line `const variable = condition.field || condition.variable`:
the JavaScript `||` takes `variable` when `field` is falsy. -/
def condVariable (d : NodeData) : String :=
  if d.field ≠ "" then d.field else d.varName

/-- The input snapshot `inputs[k]`: first binding of the key, or
`undefined` when the key is absent. -/
def lookupInput (inputs : List (String × JSVal)) (k : String) : JSVal :=
  match inputs.find? (fun p => p.1 == k) with
  | some p => p.2
  | none => JSVal.vUndefined

/-- `evaluateCondition` of `src/App.tsx` (lines 784–836): look the field
up in the snapshot, return `false` when it is `undefined`, otherwise
dispatch on the operator string; the `default` arm of the source switch
is the final wildcard, giving `false` for any unrecognised operator
(including the declared-but-unimplemented `contains`). -/
def evaluateCondition (condition : NodeData) (inputs : List (String × JSVal)) : Bool :=
  let inputValue := lookupInput inputs (condVariable condition)
  if inputValue = JSVal.vUndefined then false
  else
    match condition.operator with
    | "greaterThan" | ">" => numGtB (jsParseFloat inputValue) (jsParseFloat condition.value)
    | "lessThan" | "<" => numLtB (jsParseFloat inputValue) (jsParseFloat condition.value)
    | "greaterOrEqual" | ">=" => numGeB (jsParseFloat inputValue) (jsParseFloat condition.value)
    | "lessOrEqual" | "<=" => numLeB (jsParseFloat inputValue) (jsParseFloat condition.value)
    | "equals" | "==" => jsLooseEq inputValue condition.value
    | "notEquals" | "!=" => !(jsLooseEq inputValue condition.value)
    | "===" => jsStrictEq inputValue condition.value
    | "!==" => !(jsStrictEq inputValue condition.value)
    | _ => false

/-- The operator strings the evaluator's switch recognises. -/
def recognizedOperators : List String :=
  ["greaterThan", ">", "lessThan", "<", "greaterOrEqual", ">=",
   "lessOrEqual", "<=", "equals", "==", "notEquals", "!=", "===", "!=="]

/-- Replace each underscore by a space (the source
`actionType.replace(/_/g, " ")`). -/
def replaceUnderscores (s : String) : String :=
  s.map (fun c => if c = '_' then ' ' else c)

/-- The action-display string built by the walker's action branch
(`src/App.tsx` lines 903–925), with the JavaScript truthiness tests on
the payload fields spelt out. -/
def formatActionDisplay (d : NodeData) : String :=
  if d.actionType ≠ "" ∧ d.target ≠ "" then
    let base := replaceUnderscores d.actionType ++ ": " ++ d.target
    if d.parameters ≠ "" then base ++ " (" ++ d.parameters ++ ")" else base
  else if d.actionType ≠ "" then
    replaceUnderscores d.actionType ++ " (target not specified)"
  else if d.label ≠ "" ∧ d.label ≠ "Action" ∧ d.label ≠ "New action" then
    d.label
  else
    "Action not fully defined - click to edit"

/-- Source line
`const operatorType = node.data.operatorType || node.data.operator || "AND"`. -/
def opTypeOf (d : NodeData) : String :=
  if d.operatorType ≠ "" then d.operatorType
  else if d.operator ≠ "" then d.operator
  else "AND"

/-- One entry of the `evaluationPath` trace.  The source pushes formatted
strings; the structured form below keeps exactly the data those strings
interpolate (indentation depth, the shown field/operator/value with
their `|| "undefined"` fallbacks, the result, the action display). -/
inductive TraceEntry where
  | condLine : Nat → String → String → JSVal → Bool → TraceEntry
  | opLine : Nat → String → Bool → TraceEntry
  | actionLine : Nat → String → TraceEntry
deriving DecidableEq, Repr

/-- Is a trace entry an EXECUTED action line? -/
def isActionLine : TraceEntry → Bool
  | .actionLine _ _ => true
  | _ => false

/-- Number of EXECUTED action lines in a trace. -/
def countActionLines (l : List TraceEntry) : Nat :=
  l.countP isActionLine

/-- The three accumulators the source walker mutates through its closure:
`actions`, `evaluationPath`, and the global `matched` flag. -/
structure EvalState where
  actions : List String
  evaluationPath : List TraceEntry
  matched : Bool
deriving DecidableEq, Repr

/-- Contribution of one operand of an operator node (the body of the
`connectedSources.map` lambda in the source): look the source node up,
re-evaluate it with the predicate evaluator when it is a condition,
contribute `false` otherwise — a non-condition operand is never
recursively resolved. -/
def operandEval (rule : Rule) (inputs : List (String × JSVal)) (sourceId : String) : Bool :=
  match rule.nodes.find? (fun n => n.id == sourceId) with
  | some sourceNode =>
      if sourceNode.type == "condition" then evaluateCondition sourceNode.data inputs
      else false
  | none => false

/-- The `node.type === "condition"` branch of `evaluateNode`: evaluate
the predicate, push a trace line (with the source's `|| "undefined"`
display fallbacks), and on a true result with at least one outgoing edge
recurse into every edge target in edge-array order. -/
def evalCondBranch (rule : Rule) (inputs : List (String × JSVal))
    (recur : String → Nat → EvalState → EvalState × Bool)
    (nodeId : String) (d : NodeData) (depth : Nat) (st : EvalState) : EvalState × Bool :=
  let result := evaluateCondition d inputs
  let varShown := if d.field ≠ "" then d.field else if d.varName ≠ "" then d.varName else "undefined"
  let opShown := if d.operator ≠ "" then d.operator else "undefined"
  let valShown := if jsTruthy d.value then d.value else JSVal.vStr "undefined"
  let st1 : EvalState :=
    { st with evaluationPath :=
        st.evaluationPath ++ [TraceEntry.condLine depth varShown opShown valShown result] }
  let outgoingEdges := rule.edges.filter (fun e => e.source == nodeId)
  if result && !outgoingEdges.isEmpty then
    (outgoingEdges.foldl (fun s e => (recur e.target (depth + 1) s).1) st1, result)
  else
    (st1, result)

/-- The boolean an operator node produces (the `operatorResult` of the
source): the operands are the sources of the edges pointing INTO the
node; combine with `every` for AND and `some` for OR, and `false` for an
unrecognised operator type. -/
def opResult (rule : Rule) (inputs : List (String × JSVal)) (nodeId : String)
    (d : NodeData) : Bool :=
  let results :=
    ((rule.edges.filter (fun e => e.target == nodeId)).map Edge.source).map
      (operandEval rule inputs)
  if opTypeOf d == "AND" then results.all (fun r => r)
  else if opTypeOf d == "OR" then results.any (fun r => r)
  else false

/-- The `node.type === "operator"` branch of `evaluateNode`: compute
`opResult` over the incoming-edge sources (the source pushes the trace
line inside the same AND/OR dispatch, so an unrecognised operator type
pushes nothing and yields `false`); on a true result recurse into the
outgoing edge targets. -/
def evalOpBranch (rule : Rule) (inputs : List (String × JSVal))
    (recur : String → Nat → EvalState → EvalState × Bool)
    (nodeId : String) (d : NodeData) (depth : Nat) (st : EvalState) : EvalState × Bool :=
  let results :=
    ((rule.edges.filter (fun e => e.target == nodeId)).map Edge.source).map
      (operandEval rule inputs)
  let operatorType := opTypeOf d
  let operatorResult := opResult rule inputs nodeId d
  let st1 : EvalState :=
    if operatorType == "AND" then
      { st with evaluationPath :=
          st.evaluationPath ++ [TraceEntry.opLine depth "AND" (results.all (fun r => r))] }
    else if operatorType == "OR" then
      { st with evaluationPath :=
          st.evaluationPath ++ [TraceEntry.opLine depth "OR" (results.any (fun r => r))] }
    else st
  if operatorResult then
    ((rule.edges.filter (fun e => e.source == nodeId)).foldl
        (fun s e => (recur e.target (depth + 1) s).1) st1,
     operatorResult)
  else
    (st1, operatorResult)

/-- The `node.type === "action"` branch of `evaluateNode`: an action
always fires when reached — push the formatted display onto `actions`,
push an EXECUTED trace line, set `matched` to true, return true. -/
def evalActionBranch (d : NodeData) (depth : Nat) (st : EvalState) : EvalState × Bool :=
  let actionDisplay := formatActionDisplay d
  ({ actions := st.actions ++ [actionDisplay],
     evaluationPath := st.evaluationPath ++ [TraceEntry.actionLine depth actionDisplay],
     matched := true },
   true)

/-- One unfolding of the source's recursive `evaluateNode`, with the
recursive occurrences abstracted as `recur`: find the node (a dangling
id contributes nothing and returns `false`) and dispatch on its type. -/
def evalStep (rule : Rule) (inputs : List (String × JSVal))
    (recur : String → Nat → EvalState → EvalState × Bool)
    (nodeId : String) (depth : Nat) (st : EvalState) : EvalState × Bool :=
  match rule.nodes.find? (fun n => n.id == nodeId) with
  | none => (st, false)
  | some node =>
      if node.type == "condition" then evalCondBranch rule inputs recur nodeId node.data depth st
      else if node.type == "operator" then evalOpBranch rule inputs recur nodeId node.data depth st
      else if node.type == "action" then evalActionBranch node.data depth st
      else (st, false)

/-- The recursive walker `evaluateNode` of `src/App.tsx` (lines 848–934).
The source recursion carries no cycle guard and is therefore not
structurally terminating; it is embedded with an explicit `fuel` bound on
the recursion depth, exhausted fuel returning `false` without touching
the state.  On an acyclic graph a large enough fuel makes the embedding
agree with the source's unbounded recursion (proved below as the
termination theorem). -/
def evaluateNode (rule : Rule) (inputs : List (String × JSVal)) :
    Nat → String → Nat → EvalState → EvalState × Bool
  | 0, _, _, st => (st, false)
  | fuel + 1, nodeId, depth, st =>
      evalStep rule inputs (fun t d s => evaluateNode rule inputs fuel t d s) nodeId depth st

/-- The result record `{matched, actions, evaluationPath}`. -/
structure EvalResult where
  matched : Bool
  actions : List String
  evaluationPath : List TraceEntry
deriving DecidableEq, Repr

/-- `evaluateRule` of `src/App.tsx` (lines 837–941): start from every
node with no incoming edge, walk each root in node-array order threading
the shared accumulators, and return them. -/
def evaluateRule (rule : Rule) (inputs : List (String × JSVal)) (fuel : Nat) : EvalResult :=
  let targetNodeIds := rule.edges.map Edge.target
  let startNodes := rule.nodes.filter (fun n => !(targetNodeIds.contains n.id))
  let finalState :=
    startNodes.foldl (fun s n => (evaluateNode rule inputs fuel n.id 0 s).1)
      ⟨[], [], false⟩
  ⟨finalState.matched, finalState.actions, finalState.evaluationPath⟩

/-- Acyclicity of the edge set, phrased through a ranking function that
strictly decreases along every edge — exactly the graphs on which the
source's guard-free recursion terminates. -/
def Acyclic (edges : List Edge) : Prop :=
  ∃ rank : String → Nat, ∀ e ∈ edges, rank e.target < rank e.source

/-- Display form of an engine value when interpolated into a template
string.  JavaScript prints integers exactly; a non-integral rational is
shown as `num/den` (never exercised: the editor stores condition values
as strings). -/
def jsValToString : JSVal → String
  | .vUndefined => "undefined"
  | .vBool true => "true"
  | .vBool false => "false"
  | .vStr s => s
  | .vNum none => "NaN"
  | .vNum (some q) =>
      if q.exp = 0 then toString q.mant
      else toString q.mant ++ "/10^" ++ toString q.exp

/-- The phrase table of both `generateNaturalLanguage` implementations:
`operatorMap[data.operator || "equals"] || "equals"` — an absent or
unknown operator falls back to the "equals" phrase. -/
def operatorPhrase : String → String
  | "equals" => "equals"
  | "notEquals" => "does not equal"
  | "greaterThan" => "is greater than"
  | "lessThan" => "is less than"
  | "greaterOrEqual" => "is greater than or equal to"
  | "lessOrEqual" => "is less than or equal to"
  | "contains" => "contains"
  | _ => "equals"

/-- One condition's phrase in the natural-language summary: with a truthy
`field` and `value`, `"<field> <phrase> <value>"`; otherwise the label,
or the literal `"condition"`. -/
def renderConditionText (c : Node) : String :=
  if c.data.field ≠ "" ∧ jsTruthy c.data.value then
    c.data.field ++ " " ++ operatorPhrase c.data.operator ++ " " ++ jsValToString c.data.value
  else if c.data.label ≠ "" then c.data.label
  else "condition"

/-- One action's phrase in the preview summary: underscores of the
actionType become spaces. -/
def renderActionTextPreview (a : Node) : String :=
  if a.data.actionType ≠ "" ∧ a.data.target ≠ "" then
    replaceUnderscores a.data.actionType ++ " " ++ a.data.target
  else if a.data.label ≠ "" then a.data.label
  else "action"

/-- One action's phrase in the editor-page summary: the raw actionType. -/
def renderActionTextEditor (a : Node) : String :=
  if a.data.actionType ≠ "" ∧ a.data.target ≠ "" then
    a.data.actionType ++ " " ++ a.data.target
  else if a.data.label ≠ "" then a.data.label
  else "action"

/-- The join operator both summaries place between condition phrases:
taken from the first Operator node of the node array when one exists
(defaulting to AND when its `operatorType` is absent), else `" AND "`. -/
def joinOperator (nodes : List Node) : String :=
  match nodes.filter (fun n => n.type == "operator") with
  | [] => " AND "
  | o :: _ => " " ++ (if o.data.operatorType ≠ "" then o.data.operatorType else "AND") ++ " "

/-- `generateNaturalLanguage` of
`src/components/editor/NaturalLanguagePreview.tsx` (lines 11–62).  The
component receives both `nodes` and `edges`; the text is computed from
`nodes` alone. -/
def generateNaturalLanguage (nodes : List Node) (edges : List Edge) : String :=
  if nodes.isEmpty then "Your rule will appear here as you build it..."
  else
    let conditions := nodes.filter (fun n => n.type == "condition")
    let actions := nodes.filter (fun n => n.type == "action")
    let text1 :=
      if conditions.length > 0 then
        "IF " ++ String.intercalate (joinOperator nodes) (conditions.map renderConditionText)
      else ""
    let text2 :=
      if actions.length > 0 then
        text1 ++ " THEN " ++ String.intercalate ", " (actions.map renderActionTextPreview)
      else text1
    if text2 = "" then "Add blocks to start building your rule..." else text2

/-- `generateNaturalLanguage` of `src/pages/Editor.tsx` (lines 38–88):
identical condition/join logic, `"Empty rule"` placeholders, and no
underscore formatting in action phrases. -/
def generateNaturalLanguageEditor (nodes : List Node) (edges : List Edge) : String :=
  if nodes.isEmpty then "Empty rule"
  else
    let conditions := nodes.filter (fun n => n.type == "condition")
    let actions := nodes.filter (fun n => n.type == "action")
    let text1 :=
      if conditions.length > 0 then
        "IF " ++ String.intercalate (joinOperator nodes) (conditions.map renderConditionText)
      else ""
    let text2 :=
      if actions.length > 0 then
        text1 ++ " THEN " ++ String.intercalate ", " (actions.map renderActionTextEditor)
      else text1
    if text2 = "" then "Empty rule" else text2

/-- The validator's `{isValid, message}` result. -/
structure ValidationResult where
  isValid : Bool
  message : String
deriving DecidableEq, Repr

/-- `validateRule` of `src/pages/Editor.tsx` (lines 284–298): a pure
structural check over the node array alone — the edges are never read,
so connectivity between conditions and actions is not checked. -/
def validateRule (nodes : List Node) : ValidationResult :=
  if nodes.isEmpty then ⟨false, "Add some blocks to validate"⟩
  else
    let hasCondition := nodes.any (fun n => n.type == "condition")
    let hasAction := nodes.any (fun n => n.type == "action")
    if !hasCondition then ⟨false, "Rule must have at least one condition"⟩
    else if !hasAction then ⟨false, "Rule must have at least one action"⟩
    else ⟨true, "Rule validation passed!"⟩

/-- State `st'` extends state `st`: the walker only ever appends to
`actions` and `evaluationPath`, the appended action displays are in
one-to-one correspondence with the appended EXECUTED trace lines, and
`matched` is the old flag OR-ed with "something new fired". -/
def StExtends (st st' : EvalState) : Prop :=
  ∃ as ps,
    st'.actions = st.actions ++ as ∧
    st'.evaluationPath = st.evaluationPath ++ ps ∧
    as.length = countActionLines ps ∧
    st'.matched = (st.matched || !as.isEmpty)

/-- Spec scenario 1, first condition: `pot_placed equals "true"`. -/
def potCond : Node := ⟨"c1", "condition", condData "pot_placed" "equals" (JSVal.vStr "true")⟩

/-- Spec scenario 1, second condition: `cooker_time lessOrEqual 60`. -/
def timeCond : Node := ⟨"c2", "condition", condData "cooker_time" "lessOrEqual" (JSVal.vStr "60")⟩

/-- Spec scenario 1 action: `turn_on cooker`. -/
def cookerAction : Node := ⟨"a1", "action", actData "turn_on" "cooker"⟩

/-- Spec scenario 1 rule: condition chain into an action. -/
def cookerRule : Rule :=
  ⟨[potCond, timeCond, cookerAction], [⟨"e1", "c1", "c2"⟩, ⟨"e2", "c2", "a1"⟩]⟩

/-- Spec scenario 1 inputs. -/
def cookerInputs : List (String × JSVal) :=
  [("pot_placed", JSVal.vStr "true"), ("cooker_time", JSVal.vNum (some ⟨30, 0⟩))]

/-- Spec scenario 3 style condition: `marks greaterOrEqual 20`. -/
def marksCond : Node := ⟨"cA", "condition", condData "marks" "greaterOrEqual" (JSVal.vStr "20")⟩

/-- Second operand condition: `score lessThan 100`. -/
def scoreCond : Node := ⟨"cB", "condition", condData "score" "lessThan" (JSVal.vStr "100")⟩

/-- An AND operator node. -/
def andNode : Node := ⟨"op1", "operator", opData "AND"⟩

/-- A notification action node. -/
def notifyAction : Node := ⟨"a2", "action", actData "send_notification" "phone"⟩

/-- Operator rule: two conditions feed the AND operator which feeds the
action. -/
def andRule : Rule :=
  ⟨[marksCond, scoreCond, andNode, notifyAction],
   [⟨"e1", "cA", "op1"⟩, ⟨"e2", "cB", "op1"⟩, ⟨"e3", "op1", "a2"⟩]⟩

/-- Inputs satisfying both operands of `andRule`. -/
def andInputs : List (String × JSVal) :=
  [("marks", JSVal.vStr "25"), ("score", JSVal.vNum (some ⟨50, 0⟩))]

/-- A condition that is false on `coldInputs`: `temp greaterThan 100`. -/
def tempCond : Node := ⟨"c9", "condition", condData "temp" "greaterThan" (JSVal.vStr "100")⟩

/-- An action node with no incoming edge. -/
def fanAction : Node := ⟨"a9", "action", actData "turn_on" "fan"⟩

/-- A rule whose condition and action share no edge at all. -/
def disconnectedRule : Rule := ⟨[tempCond, fanAction], []⟩

/-- Inputs on which `tempCond` evaluates false. -/
def coldInputs : List (String × JSVal) := [("temp", JSVal.vNum (some ⟨5, 0⟩))]

/-- A fold over the same list with pointwise-equal step functions gives
the same result. -/
theorem foldl_fun_congr {α β : Type} (l : List α) (f g : β → α → β)
    (h : ∀ e ∈ l, ∀ s, f s e = g s e) : ∀ b, l.foldl f b = l.foldl g b := by
  induction l with
  | nil => intro b; rfl
  | cons a t ih =>
      intro b
      simp only [List.foldl_cons]
      rw [h a (by simp) b]
      exact ih (fun e he s => h e (by simp [he]) s) (g b a)

/-- Emptiness of an appended list. -/
theorem isEmpty_append_eq {α : Type} (l1 l2 : List α) :
    (l1 ++ l2).isEmpty = (l1.isEmpty && l2.isEmpty) := by
  cases l1 <;> simp

/-- Every member of a list of naturals is bounded by its `foldr max 0`. -/
theorem mem_le_foldr_max (l : List Nat) : ∀ x ∈ l, x ≤ l.foldr max 0 := by
  induction l with
  | nil => simp
  | cons a t ih =>
      intro x hx
      rcases List.mem_cons.mp hx with rfl | hx'
      · exact le_max_left _ _
      · exact le_trans (ih x hx') (le_max_right _ _)

/-- `StExtends` is reflexive. -/
theorem stExtends_refl (st : EvalState) : StExtends st st :=
  ⟨[], [], by simp, by simp, by simp [countActionLines], by simp⟩

/-- `StExtends` is transitive. -/
theorem stExtends_trans {a b c : EvalState} (h1 : StExtends a b) (h2 : StExtends b c) :
    StExtends a c := by
  obtain ⟨as1, ps1, ha1, hp1, hl1, hm1⟩ := h1
  obtain ⟨as2, ps2, ha2, hp2, hl2, hm2⟩ := h2
  refine ⟨as1 ++ as2, ps1 ++ ps2, ?_, ?_, ?_, ?_⟩
  · rw [ha2, ha1, List.append_assoc]
  · rw [hp2, hp1, List.append_assoc]
  · simp [countActionLines, List.countP_append] at hl1 hl2 ⊢
    omega
  · rw [hm2, hm1, isEmpty_append_eq, Bool.not_and, Bool.or_assoc]

/-- Appending one non-action trace line is an extension. -/
theorem stExtends_push_trace (st : EvalState) (t : TraceEntry) (h : isActionLine t = false) :
    StExtends st { st with evaluationPath := st.evaluationPath ++ [t] } :=
  ⟨[], [t], by simp, by simp, by simp [countActionLines, h], by simp⟩

/-- A fold whose every step is an extension is an extension. -/
theorem foldl_stExtends {α : Type} (l : List α) (f : EvalState → α → EvalState)
    (h : ∀ s, ∀ e ∈ l, StExtends s (f s e)) : ∀ st, StExtends st (l.foldl f st) := by
  induction l with
  | nil => intro st; exact stExtends_refl st
  | cons a t ih =>
      intro st
      exact stExtends_trans (h st a (by simp))
        (ih (fun s e he => h s e (by simp [he])) (f st a))

/-- The condition branch of the walker extends the state whenever the
recursive calls do. -/
theorem evalCondBranch_stExtends (rule : Rule) (inputs : List (String × JSVal))
    (recur : String → Nat → EvalState → EvalState × Bool)
    (nodeId : String) (d : NodeData) (depth : Nat) (st : EvalState)
    (hrec : ∀ t dep s, StExtends s (recur t dep s).1) :
    StExtends st (evalCondBranch rule inputs recur nodeId d depth st).1 := by
  simp only [evalCondBranch]
  split
  · exact stExtends_trans (stExtends_push_trace st _ (by rfl))
      (foldl_stExtends _ _ (fun s e _ => hrec e.target (depth + 1) s) _)
  · exact stExtends_push_trace st _ (by rfl)

/-- The operator branch of the walker extends the state whenever the
recursive calls do. -/
theorem evalOpBranch_stExtends (rule : Rule) (inputs : List (String × JSVal))
    (recur : String → Nat → EvalState → EvalState × Bool)
    (nodeId : String) (d : NodeData) (depth : Nat) (st : EvalState)
    (hrec : ∀ t dep s, StExtends s (recur t dep s).1) :
    StExtends st (evalOpBranch rule inputs recur nodeId d depth st).1 := by
  have hfold : ∀ s1 : EvalState, StExtends st s1 →
      StExtends st ((rule.edges.filter (fun e => e.source == nodeId)).foldl
        (fun s e => (recur e.target (depth + 1) s).1) s1) :=
    fun s1 h1 =>
      stExtends_trans h1 (foldl_stExtends _ _ (fun s e _ => hrec e.target (depth + 1) s) s1)
  simp only [evalOpBranch]
  repeat' split
  all_goals
    first
    | exact hfold _ (stExtends_push_trace st _ (by rfl))
    | exact hfold _ (stExtends_refl st)
    | exact stExtends_push_trace st _ (by rfl)
    | exact stExtends_refl st

/-- The action branch extends the state: one new display, one new
EXECUTED line, `matched` forced true. -/
theorem evalActionBranch_stExtends (d : NodeData) (depth : Nat) (st : EvalState) :
    StExtends st (evalActionBranch d depth st).1 := by
  refine ⟨[formatActionDisplay d], [TraceEntry.actionLine depth (formatActionDisplay d)],
    ?_, ?_, ?_, ?_⟩ <;>
  simp [evalActionBranch, countActionLines, isActionLine]

/-- One step of the walker extends the state whenever the recursive
calls do. -/
theorem evalStep_stExtends (rule : Rule) (inputs : List (String × JSVal))
    (recur : String → Nat → EvalState → EvalState × Bool)
    (nodeId : String) (depth : Nat) (st : EvalState)
    (hrec : ∀ t dep s, StExtends s (recur t dep s).1) :
    StExtends st (evalStep rule inputs recur nodeId depth st).1 := by
  simp only [evalStep]
  split
  · exact stExtends_refl st
  · rename_i node heq
    repeat' split
    all_goals
      first
      | exact evalCondBranch_stExtends rule inputs recur nodeId node.data depth st hrec
      | exact evalOpBranch_stExtends rule inputs recur nodeId node.data depth st hrec
      | exact evalActionBranch_stExtends node.data depth st
      | exact stExtends_refl st

/-- The fuelled walker always extends the state. -/
theorem evaluateNode_stExtends (rule : Rule) (inputs : List (String × JSVal)) :
    ∀ (fuel : Nat) (nodeId : String) (depth : Nat) (st : EvalState),
      StExtends st (evaluateNode rule inputs fuel nodeId depth st).1 := by
  intro fuel
  induction fuel with
  | zero => intro nodeId depth st; exact stExtends_refl st
  | succ f ih =>
      intro nodeId depth st
      simp only [evaluateNode]
      exact evalStep_stExtends rule inputs _ nodeId depth st (fun t dep s => ih t dep s)

/-- C1: for every rule graph and every input snapshot (and every fuel
bound, hence in particular on acyclic graphs where the fuel is
irrelevant), `evaluateRule` reports `matched = true` exactly when at
least one action fired (`actions` nonempty); the number of accumulated
action descriptions always equals the number of EXECUTED trace lines
(each reached action appends exactly one of each, whatever the inputs);
and the walker only ever appends to `actions` — results accumulate
across all firing branches and roots instead of stopping at the first
match. -/
theorem evaluateRule_matched_iff_action_fired (rule : Rule) (inputs : List (String × JSVal))
    (fuel : Nat) :
    (((evaluateRule rule inputs fuel).matched = true) ↔
      (evaluateRule rule inputs fuel).actions ≠ [])
  ∧ (evaluateRule rule inputs fuel).actions.length
      = countActionLines (evaluateRule rule inputs fuel).evaluationPath
  ∧ ∀ nodeId depth st, ∃ extra,
      ((evaluateNode rule inputs fuel nodeId depth st).1).actions = st.actions ++ extra := by
  have hfold :
      StExtends ⟨[], [], false⟩
        ((rule.nodes.filter (fun n => !((rule.edges.map Edge.target).contains n.id))).foldl
          (fun s n => (evaluateNode rule inputs fuel n.id 0 s).1) ⟨[], [], false⟩) :=
    foldl_stExtends _ _ (fun s e _ => evaluateNode_stExtends rule inputs fuel e.id 0 s) _
  obtain ⟨as, ps, ha, hp, hl, hm⟩ := hfold
  refine ⟨?_, ?_, ?_⟩
  · simp only [evaluateRule]
    rw [ha, hm]
    simp [List.isEmpty_iff]
  · simp only [evaluateRule]
    rw [ha, hp]
    simpa using hl
  · intro nodeId depth st
    obtain ⟨as', ps', ha', _, _, _⟩ := evaluateNode_stExtends rule inputs fuel nodeId depth st
    exact ⟨as', ha'⟩

/-- The condition branch only looks at the recursive callee on the
targets of the node's outgoing edges. -/
theorem evalCondBranch_congr (rule : Rule) (inputs : List (String × JSVal))
    (r1 r2 : String → Nat → EvalState → EvalState × Bool)
    (nodeId : String) (d : NodeData) (depth : Nat) (st : EvalState)
    (h : ∀ e ∈ rule.edges, e.source = nodeId → ∀ dep s, r1 e.target dep s = r2 e.target dep s) :
    evalCondBranch rule inputs r1 nodeId d depth st
      = evalCondBranch rule inputs r2 nodeId d depth st := by
  have hf := foldl_fun_congr (rule.edges.filter (fun e => e.source == nodeId))
    (fun s e => (r1 e.target (depth + 1) s).1) (fun s e => (r2 e.target (depth + 1) s).1)
    (fun e he s => by
      have hmem := List.mem_filter.mp he
      have hsrc : e.source = nodeId := by simpa using hmem.2
      dsimp only
      rw [h e hmem.1 hsrc])
  simp only [evalCondBranch]
  rw [hf]

/-- The operator branch only looks at the recursive callee on the
targets of the node's outgoing edges (its operands are evaluated
non-recursively). -/
theorem evalOpBranch_congr (rule : Rule) (inputs : List (String × JSVal))
    (r1 r2 : String → Nat → EvalState → EvalState × Bool)
    (nodeId : String) (d : NodeData) (depth : Nat) (st : EvalState)
    (h : ∀ e ∈ rule.edges, e.source = nodeId → ∀ dep s, r1 e.target dep s = r2 e.target dep s) :
    evalOpBranch rule inputs r1 nodeId d depth st
      = evalOpBranch rule inputs r2 nodeId d depth st := by
  have hf := foldl_fun_congr (rule.edges.filter (fun e => e.source == nodeId))
    (fun s e => (r1 e.target (depth + 1) s).1) (fun s e => (r2 e.target (depth + 1) s).1)
    (fun e he s => by
      have hmem := List.mem_filter.mp he
      have hsrc : e.source = nodeId := by simpa using hmem.2
      dsimp only
      rw [h e hmem.1 hsrc])
  simp only [evalOpBranch]
  rw [hf]

/-- One walker step only looks at the recursive callee on the targets of
the visited node's outgoing edges. -/
theorem evalStep_congr (rule : Rule) (inputs : List (String × JSVal))
    (r1 r2 : String → Nat → EvalState → EvalState × Bool)
    (nodeId : String) (depth : Nat) (st : EvalState)
    (h : ∀ e ∈ rule.edges, e.source = nodeId → ∀ dep s, r1 e.target dep s = r2 e.target dep s) :
    evalStep rule inputs r1 nodeId depth st = evalStep rule inputs r2 nodeId depth st := by
  simp only [evalStep]
  split
  · rfl
  · rename_i node heq
    repeat' split
    all_goals
      first
      | exact evalCondBranch_congr rule inputs r1 r2 nodeId node.data depth st h
      | exact evalOpBranch_congr rule inputs r1 r2 nodeId node.data depth st h
      | rfl

/-- On a ranked (acyclic) edge set the walker's value does not depend on
the fuel once the fuel exceeds the visited node's rank. -/
theorem evaluateNode_fuel_congr (rule : Rule) (inputs : List (String × JSVal))
    (rank : String → Nat) (hr : ∀ e ∈ rule.edges, rank e.target < rank e.source) :
    ∀ (k : Nat) (nodeId : String), rank nodeId < k →
      ∀ f1 f2, rank nodeId < f1 → rank nodeId < f2 →
        ∀ depth st,
          evaluateNode rule inputs f1 nodeId depth st
            = evaluateNode rule inputs f2 nodeId depth st := by
  intro k
  induction k with
  | zero => intro nodeId hk; omega
  | succ k ih =>
      intro nodeId hk f1 f2 h1 h2 depth st
      obtain ⟨a, rfl⟩ : ∃ a, f1 = a + 1 := ⟨f1 - 1, by omega⟩
      obtain ⟨b, rfl⟩ : ∃ b, f2 = b + 1 := ⟨f2 - 1, by omega⟩
      simp only [evaluateNode]
      apply evalStep_congr
      intro e he hsrc dep s
      have ht := hr e he
      rw [hsrc] at ht
      exact ih e.target (by omega) a b (by omega) (by omega) dep s

/-- C7: on every rule whose edge set is acyclic, the evaluation
stabilises — there is a fuel bound past which `evaluateRule` returns the
same result no matter how much further fuel it is given.  This is the
fuel-embedding statement that the source's unguarded recursion
terminates on acyclic graphs; acyclicity is the precondition that makes
it well-founded. -/
theorem evaluateRule_terminates_on_acyclic (rule : Rule) (inputs : List (String × JSVal))
    (h : Acyclic rule.edges) :
    ∃ F, ∀ f, F ≤ f → evaluateRule rule inputs f = evaluateRule rule inputs F := by
  obtain ⟨rank, hr⟩ := h
  refine ⟨((rule.nodes.map (fun n => rank n.id)).foldr max 0) + 1, ?_⟩
  intro f hf
  have hstep : ∀ n ∈ rule.nodes.filter (fun n => !((rule.edges.map Edge.target).contains n.id)),
      ∀ s, (evaluateNode rule inputs f n.id 0 s).1
        = (evaluateNode rule inputs ((rule.nodes.map (fun n => rank n.id)).foldr max 0 + 1) n.id 0 s).1 := by
    intro n hn s
    have hmem : n ∈ rule.nodes := (List.mem_filter.mp hn).1
    have hrank : rank n.id ≤ (rule.nodes.map (fun n => rank n.id)).foldr max 0 :=
      mem_le_foldr_max _ _ (List.mem_map.mpr ⟨n, hmem, rfl⟩)
    rw [evaluateNode_fuel_congr rule inputs rank hr
      ((rule.nodes.map (fun n => rank n.id)).foldr max 0 + 1) n.id (by omega)
      f ((rule.nodes.map (fun n => rank n.id)).foldr max 0 + 1) (by omega) (by omega) 0 s]
  simp only [evaluateRule]
  rw [foldl_fun_congr _ _ _ hstep]

/-- Witness for the termination theorem: the cooker rule's chain
`c1 → c2 → a1` is acyclic, so its evaluation stabilises. -/
theorem evaluateRule_terminates_on_acyclic_witness :
    Acyclic cookerRule.edges ∧
    ∃ F, ∀ f, F ≤ f →
      evaluateRule cookerRule cookerInputs f = evaluateRule cookerRule cookerInputs F := by
  have hA : Acyclic cookerRule.edges := by
    refine ⟨fun s => if s == "c1" then 2 else if s == "c2" then 1 else 0, ?_⟩
    intro e he
    fin_cases he <;> decide
  exact ⟨hA, evaluateRule_terminates_on_acyclic cookerRule cookerInputs hA⟩

/-- Visiting an action node with positive fuel appends its display and
its EXECUTED line and returns a true, matched result. -/
theorem evaluateNode_action_step (rule : Rule) (inputs : List (String × JSVal))
    {n : Node} {nodeId : String}
    (hfind : rule.nodes.find? (fun m => m.id == nodeId) = some n)
    (hty : n.type = "action") (f depth : Nat) (st : EvalState) :
    evaluateNode rule inputs (f + 1) nodeId depth st
      = (⟨st.actions ++ [formatActionDisplay n.data],
          st.evaluationPath ++ [TraceEntry.actionLine depth (formatActionDisplay n.data)],
          true⟩,
         true) := by
  simp [evaluateNode, evalStep, hfind, hty, evalActionBranch]

/-- Folding the walker over a node list containing an action node (whose
id resolves to itself) fires that action: its display lands in `actions`
and `matched` ends true, whatever else the list contains. -/
theorem foldl_fires_action (rule : Rule) (inputs : List (String × JSVal)) (f : Nat)
    (n : Node) (hty : n.type = "action")
    (hfind : rule.nodes.find? (fun m => m.id == n.id) = some n) :
    ∀ (l : List Node), n ∈ l → ∀ st : EvalState,
      formatActionDisplay n.data
          ∈ (l.foldl (fun s m => (evaluateNode rule inputs (f + 1) m.id 0 s).1) st).actions
        ∧ (l.foldl (fun s m => (evaluateNode rule inputs (f + 1) m.id 0 s).1) st).matched
            = true := by
  intro l
  induction l with
  | nil => intro hmem; exact absurd hmem (List.not_mem_nil n)
  | cons a t ih =>
      intro hmem st
      simp only [List.foldl_cons]
      rcases List.mem_cons.mp hmem with rfl | hmem'
      · rw [evaluateNode_action_step rule inputs hfind hty f 0 st]
        have hext :
            StExtends
              ⟨st.actions ++ [formatActionDisplay n.data],
               st.evaluationPath ++ [TraceEntry.actionLine 0 (formatActionDisplay n.data)],
               true⟩
              (t.foldl (fun s m => (evaluateNode rule inputs (f + 1) m.id 0 s).1)
                ⟨st.actions ++ [formatActionDisplay n.data],
                 st.evaluationPath ++ [TraceEntry.actionLine 0 (formatActionDisplay n.data)],
                 true⟩) :=
          foldl_stExtends _ _
            (fun s e _ => evaluateNode_stExtends rule inputs (f + 1) e.id 0 s) _
        obtain ⟨as, ps, ha, _, _, hm⟩ := hext
        constructor
        · rw [ha]
          exact List.mem_append_left _ (by simp)
        · rw [hm]
          rfl
      · exact ih hmem' _

/-- C10: an action node with no incoming edge is a root, and the walker
fires it unconditionally on every input snapshot: `evaluateRule` reports
`matched = true` and the action's formatted description is in `actions`,
regardless of how every condition in the rule evaluates. -/
theorem root_action_fires_unconditionally (rule : Rule) (inputs : List (String × JSVal))
    (f : Nat) (n : Node)
    (hfind : rule.nodes.find? (fun m => m.id == n.id) = some n)
    (hty : n.type = "action")
    (hroot : ∀ e ∈ rule.edges, e.target ≠ n.id) :
    (evaluateRule rule inputs (f + 1)).matched = true ∧
    formatActionDisplay n.data ∈ (evaluateRule rule inputs (f + 1)).actions := by
  have hmemNodes : n ∈ rule.nodes := List.mem_of_find?_eq_some hfind
  have hstart :
      n ∈ rule.nodes.filter (fun m => !((rule.edges.map Edge.target).contains m.id)) := by
    rw [List.mem_filter]
    refine ⟨hmemNodes, ?_⟩
    rw [Bool.not_eq_true']
    rw [← Bool.not_eq_true]
    intro hcon
    obtain ⟨a', ha', hbeq⟩ := List.contains_iff_exists_mem_beq.mp hcon
    obtain ⟨e, he, rfl⟩ := List.mem_map.mp ha'
    have hid : n.id = e.target := by simpa using hbeq
    exact hroot e he hid.symm
  have hfire := foldl_fires_action rule inputs f n hty hfind _ hstart ⟨[], [], false⟩
  exact ⟨hfire.2, hfire.1⟩

/-- Witness for the unconditional root action: in the disconnected rule
(the validator calls it valid) the single condition is false on the cold
inputs, yet the rule matches and the fan action fires. -/
theorem root_action_fires_unconditionally_witness :
    (disconnectedRule.nodes.find? (fun m => m.id == fanAction.id) = some fanAction
      ∧ fanAction.type = "action"
      ∧ (∀ e ∈ disconnectedRule.edges, e.target ≠ fanAction.id)
      ∧ (validateRule disconnectedRule.nodes).isValid = true
      ∧ evaluateCondition tempCond.data coldInputs = false)
    ∧ ((evaluateRule disconnectedRule coldInputs (4 + 1)).matched = true
      ∧ formatActionDisplay fanAction.data
          ∈ (evaluateRule disconnectedRule coldInputs (4 + 1)).actions) := by
  refine ⟨⟨by decide, rfl, by simp [disconnectedRule], by decide, by decide⟩, ?_⟩
  exact root_action_fires_unconditionally disconnectedRule coldInputs 4 fanAction
    (by decide) rfl (by simp [disconnectedRule])

/-- An operand contributes true exactly when its id resolves to a
condition node whose predicate holds — a dangling id or a non-condition
node contributes false. -/
theorem operandEval_eq_true_iff (rule : Rule) (inputs : List (String × JSVal)) (sid : String) :
    operandEval rule inputs sid = true ↔
      ∃ sn, rule.nodes.find? (fun n => n.id == sid) = some sn ∧
        sn.type = "condition" ∧ evaluateCondition sn.data inputs = true := by
  unfold operandEval
  cases hf : rule.nodes.find? (fun n => n.id == sid) with
  | none => simp [hf]
  | some sn =>
      by_cases ht : sn.type = "condition"
      · simp [ht]
      · simp [ht, beq_iff_eq]

/-- The boolean an operator branch returns: `every` of the operand
contributions under AND, `some` under OR, false otherwise. -/
theorem evalOpBranch_snd (rule : Rule) (inputs : List (String × JSVal))
    (recur : String → Nat → EvalState → EvalState × Bool)
    (nodeId : String) (d : NodeData) (depth : Nat) (st : EvalState) :
    (evalOpBranch rule inputs recur nodeId d depth st).2
      = opResult rule inputs nodeId d := by
  simp only [evalOpBranch]
  cases hres : opResult rule inputs nodeId d
  · simp [hres]
  · simp [hres]

/-- Visiting an operator node with positive fuel dispatches to the
operator branch. -/
theorem evaluateNode_operator_step (rule : Rule) (inputs : List (String × JSVal))
    {node : Node} (f depth : Nat) (st : EvalState)
    (hfind : rule.nodes.find? (fun m => m.id == node.id) = some node)
    (hty : node.type = "operator") :
    evaluateNode rule inputs (f + 1) node.id depth st
      = evalOpBranch rule inputs (fun t dep s => evaluateNode rule inputs f t dep s)
          node.id node.data depth st := by
  simp [evaluateNode, evalStep, hfind, hty]

/-- C2: when the walker visits an operator node, its operands are
exactly the sources of the edges pointing into the node; the node
returns true under AND type exactly when every such operand is a
condition node whose predicate evaluates true (so a non-condition
operand, which contributes false and is never recursively resolved,
falsifies an AND), and under OR exactly when at least one is. -/
theorem operator_node_and_or_semantics (rule : Rule) (inputs : List (String × JSVal))
    (node : Node) (f depth : Nat) (st : EvalState)
    (hfind : rule.nodes.find? (fun m => m.id == node.id) = some node)
    (hty : node.type = "operator") :
    (opTypeOf node.data = "AND" →
      ((evaluateNode rule inputs (f + 1) node.id depth st).2 = true ↔
        ∀ e ∈ rule.edges, e.target = node.id →
          ∃ sn, rule.nodes.find? (fun n => n.id == e.source) = some sn ∧
            sn.type = "condition" ∧ evaluateCondition sn.data inputs = true))
  ∧ (opTypeOf node.data = "OR" →
      ((evaluateNode rule inputs (f + 1) node.id depth st).2 = true ↔
        ∃ e ∈ rule.edges, e.target = node.id ∧
          ∃ sn, rule.nodes.find? (fun n => n.id == e.source) = some sn ∧
            sn.type = "condition" ∧ evaluateCondition sn.data inputs = true)) := by
  rw [evaluateNode_operator_step rule inputs f depth st hfind hty, evalOpBranch_snd]
  constructor
  · intro hAND
    simp only [opResult, hAND]
    simp [List.all_eq_true, List.mem_map, List.mem_filter,
      operandEval_eq_true_iff, beq_iff_eq]
  · intro hOR
    by_cases hA : opTypeOf node.data = "AND"
    · rw [hA] at hOR
      exact absurd hOR (by decide)
    · simp only [opResult, hOR, hA]
      simp [List.any_eq_true, List.mem_map, List.mem_filter,
        operandEval_eq_true_iff, beq_iff_eq]
      tauto

/-- Witness for the operator-node semantics, on the concrete AND rule:
both operand conditions hold on the inputs so the iff's two sides are
both realised. -/
theorem operator_node_and_or_semantics_witness :
    (andRule.nodes.find? (fun m => m.id == andNode.id) = some andNode
      ∧ andNode.type = "operator"
      ∧ opTypeOf andNode.data = "AND"
      ∧ (evaluateNode andRule andInputs (4 + 1) andNode.id 0 ⟨[], [], false⟩).2 = true)
    ∧ ((opTypeOf andNode.data = "AND" →
        ((evaluateNode andRule andInputs (4 + 1) andNode.id 0 ⟨[], [], false⟩).2 = true ↔
          ∀ e ∈ andRule.edges, e.target = andNode.id →
            ∃ sn, andRule.nodes.find? (fun n => n.id == e.source) = some sn ∧
              sn.type = "condition" ∧ evaluateCondition sn.data andInputs = true))
      ∧ (opTypeOf andNode.data = "OR" →
        ((evaluateNode andRule andInputs (4 + 1) andNode.id 0 ⟨[], [], false⟩).2 = true ↔
          ∃ e ∈ andRule.edges, e.target = andNode.id ∧
            ∃ sn, andRule.nodes.find? (fun n => n.id == e.source) = some sn ∧
              sn.type = "condition" ∧ evaluateCondition sn.data andInputs = true))) := by
  refine ⟨⟨by decide, rfl, by decide, by decide⟩, ?_⟩
  exact operator_node_and_or_semantics andRule andInputs andNode 4 0 ⟨[], [], false⟩
    (by decide) rfl

/-- C3: when the condition's field is not a key of the input snapshot
the predicate evaluator returns `false` — fail-closed, whatever the
operator is; totality of the Lean function is the no-exception part. -/
theorem missing_field_evaluates_false (c : NodeData) (inputs : List (String × JSVal))
    (h : inputs.find? (fun p => p.1 == condVariable c) = none) :
    evaluateCondition c inputs = false := by
  simp [evaluateCondition, lookupInput, h]

/-- Witness for the missing-field claim: a condition on `humidity`
against a snapshot holding only `temp`, with a numeric operator. -/
theorem missing_field_evaluates_false_witness :
    ([(("temp" : String), JSVal.vNum (some ⟨3, 0⟩))].find?
        (fun p => p.1 == condVariable (condData "humidity" "greaterThan" (JSVal.vStr "5"))) = none)
    ∧ evaluateCondition (condData "humidity" "greaterThan" (JSVal.vStr "5"))
        [("temp", JSVal.vNum (some ⟨3, 0⟩))] = false :=
  ⟨by decide,
   missing_field_evaluates_false (condData "humidity" "greaterThan" (JSVal.vStr "5"))
     [("temp", JSVal.vNum (some ⟨3, 0⟩))] (by decide)⟩

/-- C4: with the field present, `equals`/`==` is JavaScript loose
(type-coercing) equality, `===` is strict equality, and
`notEquals`/`!=` and `!==` are the respective negations; in particular
numeric input 20 against the string value "20" is true under `equals`
and false under `===`. -/
theorem equality_operator_semantics (c : NodeData) (inputs : List (String × JSVal))
    (iv : JSVal) (hl : lookupInput inputs (condVariable c) = iv)
    (hne : iv ≠ JSVal.vUndefined) :
    ((c.operator = "equals" ∨ c.operator = "==") →
      evaluateCondition c inputs = jsLooseEq iv c.value)
  ∧ (c.operator = "===" → evaluateCondition c inputs = jsStrictEq iv c.value)
  ∧ ((c.operator = "notEquals" ∨ c.operator = "!=") →
      evaluateCondition c inputs = !(jsLooseEq iv c.value))
  ∧ (c.operator = "!==" → evaluateCondition c inputs = !(jsStrictEq iv c.value))
  ∧ evaluateCondition (condData "score" "equals" (JSVal.vStr "20"))
      [("score", JSVal.vNum (some ⟨20, 0⟩))] = true
  ∧ evaluateCondition (condData "score" "===" (JSVal.vStr "20"))
      [("score", JSVal.vNum (some ⟨20, 0⟩))] = false := by
  refine ⟨?_, ?_, ?_, ?_, by decide, by decide⟩
  · rintro (hop | hop) <;> simp [evaluateCondition, hl, hne, hop]
  · intro hop; simp [evaluateCondition, hl, hne, hop]
  · rintro (hop | hop) <;> simp [evaluateCondition, hl, hne, hop]
  · intro hop; simp [evaluateCondition, hl, hne, hop]

/-- Witness for the equality operators: the loose-equality score
condition on the numeric snapshot, instantiating the general clauses. -/
theorem equality_operator_semantics_witness :
    (lookupInput [(("score" : String), JSVal.vNum (some ⟨20, 0⟩))]
        (condVariable (condData "score" "equals" (JSVal.vStr "20")))
      = JSVal.vNum (some ⟨20, 0⟩))
    ∧ ((condData "score" "equals" (JSVal.vStr "20")).operator = "equals"
        ∨ (condData "score" "equals" (JSVal.vStr "20")).operator = "==")
    ∧ evaluateCondition (condData "score" "equals" (JSVal.vStr "20"))
        [("score", JSVal.vNum (some ⟨20, 0⟩))]
      = jsLooseEq (JSVal.vNum (some ⟨20, 0⟩)) (condData "score" "equals" (JSVal.vStr "20")).value :=
  ⟨by decide, Or.inl rfl,
   (equality_operator_semantics (condData "score" "equals" (JSVal.vStr "20"))
      [("score", JSVal.vNum (some ⟨20, 0⟩))] (JSVal.vNum (some ⟨20, 0⟩))
      (by decide) (by decide)).1 (Or.inl rfl)⟩

/-- C5: with the field present, the four numeric comparison operators
(in both word and symbol spelling) parse both sides with `parseFloat`
and compare; a side that fails to parse is `NaN` (`none`) and every
comparison against `NaN` is false, with no error raised (the evaluator
is a total function). -/
theorem numeric_operator_semantics (c : NodeData) (inputs : List (String × JSVal))
    (iv : JSVal) (hl : lookupInput inputs (condVariable c) = iv)
    (hne : iv ≠ JSVal.vUndefined) :
    ((c.operator = "greaterThan" ∨ c.operator = ">") →
      evaluateCondition c inputs = numGtB (jsParseFloat iv) (jsParseFloat c.value))
  ∧ ((c.operator = "lessThan" ∨ c.operator = "<") →
      evaluateCondition c inputs = numLtB (jsParseFloat iv) (jsParseFloat c.value))
  ∧ ((c.operator = "greaterOrEqual" ∨ c.operator = ">=") →
      evaluateCondition c inputs = numGeB (jsParseFloat iv) (jsParseFloat c.value))
  ∧ ((c.operator = "lessOrEqual" ∨ c.operator = "<=") →
      evaluateCondition c inputs = numLeB (jsParseFloat iv) (jsParseFloat c.value))
  ∧ (∀ x : Option DecNum,
      numGtB none x = false ∧ numGtB x none = false
    ∧ numLtB none x = false ∧ numLtB x none = false
    ∧ numGeB none x = false ∧ numGeB x none = false
    ∧ numLeB none x = false ∧ numLeB x none = false) := by
  refine ⟨?_, ?_, ?_, ?_, ?_⟩
  · rintro (hop | hop) <;> simp [evaluateCondition, hl, hne, hop]
  · rintro (hop | hop) <;> simp [evaluateCondition, hl, hne, hop]
  · rintro (hop | hop) <;> simp [evaluateCondition, hl, hne, hop]
  · rintro (hop | hop) <;> simp [evaluateCondition, hl, hne, hop]
  · intro x
    cases x <;> simp [numGtB, numLtB, numGeB, numLeB]

/-- Witness for the numeric comparisons: the cooker-time condition
(`lessOrEqual 60`, input 30) instantiating the general clauses. -/
theorem numeric_operator_semantics_witness :
    (lookupInput cookerInputs (condVariable (condData "cooker_time" "lessOrEqual" (JSVal.vStr "60")))
      = JSVal.vNum (some ⟨30, 0⟩))
    ∧ evaluateCondition (condData "cooker_time" "lessOrEqual" (JSVal.vStr "60")) cookerInputs
      = numLeB (jsParseFloat (JSVal.vNum (some ⟨30, 0⟩)))
          (jsParseFloat (condData "cooker_time" "lessOrEqual" (JSVal.vStr "60")).value) :=
  ⟨by decide,
   (numeric_operator_semantics (condData "cooker_time" "lessOrEqual" (JSVal.vStr "60"))
      cookerInputs (JSVal.vNum (some ⟨30, 0⟩)) (by decide) (by decide)).2.2.2.1 (Or.inl rfl)⟩

/-- C6: any operator string outside the recognised set — including the
declared-but-unimplemented `contains` — makes the predicate evaluator
return `false` (indistinguishable from an ordinary false condition), on
every input snapshot and without any error. -/
theorem unknown_operator_evaluates_false (c : NodeData) (inputs : List (String × JSVal))
    (h : c.operator ∉ recognizedOperators) :
    evaluateCondition c inputs = false := by
  simp only [evaluateCondition]
  split
  · rfl
  · split
    all_goals
      first
      | rfl
      | (exfalso
         apply h
         simp_all [recognizedOperators])

/-- Witness for the unknown-operator claim: a `contains` condition whose
field is present in the snapshot still evaluates false. -/
theorem unknown_operator_evaluates_false_witness :
    ((condData "name" "contains" (JSVal.vStr "ab")).operator ∉ recognizedOperators)
    ∧ lookupInput [(("name" : String), JSVal.vStr "abc")]
        (condVariable (condData "name" "contains" (JSVal.vStr "ab"))) = JSVal.vStr "abc"
    ∧ evaluateCondition (condData "name" "contains" (JSVal.vStr "ab"))
        [("name", JSVal.vStr "abc")] = false :=
  ⟨by decide, by decide,
   unknown_operator_evaluates_false (condData "name" "contains" (JSVal.vStr "ab"))
     [("name", JSVal.vStr "abc")] (by decide)⟩

/-- A string starting with the IF header is never empty. -/
theorem ifHeader_append_ne_empty (x : String) : "IF " ++ x ≠ "" := by
  intro h
  have h3 := congrArg String.length h
  rw [String.length_append] at h3
  have e1 : ("IF " : String).length = 3 := rfl
  have e2 : ("" : String).length = 0 := rfl
  omega

/-- C8: both natural-language summaries are computed from the node array
alone (independent of the edges), and with at least two condition nodes
the condition phrases are joined — globally — by one operator string:
`" AND "` when the node array has no operator node, otherwise the
`operatorType` of the first operator node in array order (defaulting to
AND when that field is absent); the summary is the IF header, the joined
condition phrases in node-array order, and a THEN tail. -/
theorem naturalLanguage_global_join (nodes : List Node) (edges edges2 : List Edge) :
    (generateNaturalLanguage nodes edges = generateNaturalLanguage nodes edges2
      ∧ generateNaturalLanguageEditor nodes edges = generateNaturalLanguageEditor nodes edges2)
  ∧ (2 ≤ (nodes.filter (fun n => n.type == "condition")).length →
      ((nodes.filter (fun n => n.type == "operator") = [] → joinOperator nodes = " AND ")
    ∧ (∀ o rest, nodes.filter (fun n => n.type == "operator") = o :: rest →
        joinOperator nodes
          = " " ++ (if o.data.operatorType ≠ "" then o.data.operatorType else "AND") ++ " ")
    ∧ ∃ tailP tailE,
        generateNaturalLanguage nodes edges
          = "IF " ++ String.intercalate (joinOperator nodes)
              ((nodes.filter (fun n => n.type == "condition")).map renderConditionText) ++ tailP
      ∧ generateNaturalLanguageEditor nodes edges
          = "IF " ++ String.intercalate (joinOperator nodes)
              ((nodes.filter (fun n => n.type == "condition")).map renderConditionText)
            ++ tailE)) := by
  refine ⟨⟨rfl, rfl⟩, ?_⟩
  intro h2
  have hlen : 0 < (nodes.filter (fun n => n.type == "condition")).length := by omega
  have hne : nodes ≠ [] := by
    intro h
    subst h
    simp at h2
  have hisEmpty : nodes.isEmpty = false := by
    cases nodes
    · exact absurd rfl hne
    · rfl
  refine ⟨?_, ?_, ?_⟩
  · intro hop
    simp [joinOperator, hop]
  · intro o rest hop
    simp [joinOperator, hop]
  · by_cases hact : 0 < (nodes.filter (fun n => n.type == "action")).length
    · refine ⟨" THEN " ++ String.intercalate ", "
          ((nodes.filter (fun n => n.type == "action")).map renderActionTextPreview),
        " THEN " ++ String.intercalate ", "
          ((nodes.filter (fun n => n.type == "action")).map renderActionTextEditor),
        ?_, ?_⟩
      · simp only [generateNaturalLanguage, hisEmpty, Bool.false_eq_true, if_false, gt_iff_lt,
          hlen, if_pos, hact]
        rw [if_neg (by
          rw [String.append_assoc]
          exact ifHeader_append_ne_empty _)]
        rw [String.append_assoc]
      · simp only [generateNaturalLanguageEditor, hisEmpty, Bool.false_eq_true, if_false,
          gt_iff_lt, hlen, if_pos, hact]
        rw [if_neg (by
          rw [String.append_assoc]
          exact ifHeader_append_ne_empty _)]
        rw [String.append_assoc]
    · refine ⟨"", "", ?_, ?_⟩
      · simp only [generateNaturalLanguage, hisEmpty, Bool.false_eq_true, if_false, gt_iff_lt,
          hlen, if_pos, hact]
        rw [if_neg (ifHeader_append_ne_empty _), String.append_empty]
      · simp only [generateNaturalLanguageEditor, hisEmpty, Bool.false_eq_true, if_false,
          gt_iff_lt, hlen, if_pos, hact]
        rw [if_neg (ifHeader_append_ne_empty _), String.append_empty]

/-- Witness for the global-join claim: two conditions and an AND
operator node; the filter facts and the join are instantiated
concretely. -/
theorem naturalLanguage_global_join_witness :
    (2 ≤ ([marksCond, scoreCond, andNode, notifyAction].filter
        (fun n => n.type == "condition")).length)
    ∧ (([marksCond, scoreCond, andNode, notifyAction].filter
          (fun n => n.type == "operator") = [] →
            joinOperator [marksCond, scoreCond, andNode, notifyAction] = " AND ")
      ∧ (∀ o rest, [marksCond, scoreCond, andNode, notifyAction].filter
            (fun n => n.type == "operator") = o :: rest →
          joinOperator [marksCond, scoreCond, andNode, notifyAction]
            = " " ++ (if o.data.operatorType ≠ "" then o.data.operatorType else "AND") ++ " ")
      ∧ ∃ tailP tailE,
          generateNaturalLanguage [marksCond, scoreCond, andNode, notifyAction] []
            = "IF " ++ String.intercalate
                (joinOperator [marksCond, scoreCond, andNode, notifyAction])
                (([marksCond, scoreCond, andNode, notifyAction].filter
                  (fun n => n.type == "condition")).map renderConditionText) ++ tailP
        ∧ generateNaturalLanguageEditor [marksCond, scoreCond, andNode, notifyAction] []
            = "IF " ++ String.intercalate
                (joinOperator [marksCond, scoreCond, andNode, notifyAction])
                (([marksCond, scoreCond, andNode, notifyAction].filter
                  (fun n => n.type == "condition")).map renderConditionText) ++ tailE) :=
  ⟨by decide,
   (naturalLanguage_global_join [marksCond, scoreCond, andNode, notifyAction] [] []).2
     (by decide)⟩

/-- C9: the validator rejects exactly the empty node set (with the
add-blocks message), a node set without a condition node, and a node set
without an action node, with the respective messages; every other node
set validates, the edges never being consulted (the validator reads only
the node array, so an unconnected condition/action pair still passes). -/
theorem validateRule_characterization (nodes : List Node) :
    ((validateRule nodes).isValid = false ↔
       (nodes = [] ∨ (∀ n ∈ nodes, n.type ≠ "condition") ∨ (∀ n ∈ nodes, n.type ≠ "action")))
  ∧ (nodes = [] → (validateRule nodes).message = "Add some blocks to validate")
  ∧ (nodes ≠ [] → (∀ n ∈ nodes, n.type ≠ "condition") →
       (validateRule nodes).message = "Rule must have at least one condition")
  ∧ (nodes ≠ [] → (∃ n ∈ nodes, n.type = "condition") → (∀ n ∈ nodes, n.type ≠ "action") →
       (validateRule nodes).message = "Rule must have at least one action")
  ∧ ((∃ n ∈ nodes, n.type = "condition") → (∃ n ∈ nodes, n.type = "action") →
       validateRule nodes = ⟨true, "Rule validation passed!"⟩) := by
  by_cases h0 : nodes = []
  · subst h0
    refine ⟨by simp [validateRule], fun _ => by simp [validateRule], ?_, ?_, ?_⟩
    · intro hne
      exact absurd rfl hne
    · intro hne
      exact absurd rfl hne
    · rintro ⟨n, hn, -⟩
      exact absurd hn (List.not_mem_nil n)
  · have hisE : nodes.isEmpty = false := by
      cases nodes
      · exact absurd rfl h0
      · rfl
    by_cases hcB : nodes.any (fun n => n.type == "condition") = true
    · obtain ⟨nc, hnc, hnc2⟩ := List.any_eq_true.mp hcB
      rw [beq_iff_eq] at hnc2
      by_cases haB : nodes.any (fun n => n.type == "action") = true
      · obtain ⟨na, hna, hna2⟩ := List.any_eq_true.mp haB
        rw [beq_iff_eq] at hna2
        have hv : validateRule nodes = ⟨true, "Rule validation passed!"⟩ := by
          simp [validateRule, hisE, hcB, haB]
        refine ⟨?_, fun h => absurd h h0, ?_, ?_, fun _ _ => hv⟩
        · rw [hv]
          constructor
          · intro h
            exact absurd h (by decide)
          · rintro (h | hall | hall)
            · exact absurd h h0
            · exact absurd hnc2 (hall nc hnc)
            · exact absurd hna2 (hall na hna)
        · intro _ hall
          exact absurd hnc2 (hall nc hnc)
        · rintro _ _ hall
          exact absurd hna2 (hall na hna)
      · have haB' : nodes.any (fun n => n.type == "action") = false := by
          cases h : nodes.any (fun n => n.type == "action")
          · rfl
          · exact absurd h haB
        have hallA : ∀ n ∈ nodes, n.type ≠ "action" := by
          intro n hn h
          exact haB (List.any_eq_true.mpr ⟨n, hn, by simp [h]⟩)
        have hv : validateRule nodes = ⟨false, "Rule must have at least one action"⟩ := by
          simp [validateRule, hisE, hcB, haB']
        refine ⟨?_, fun h => absurd h h0, ?_, fun _ _ _ => by rw [hv], ?_⟩
        · rw [hv]
          exact ⟨fun _ => Or.inr (Or.inr hallA), fun _ => rfl⟩
        · intro _ hall
          exact absurd hnc2 (hall nc hnc)
        · rintro - ⟨na, hna, hna2⟩
          exact absurd hna2 (hallA na hna)
    · have hcB' : nodes.any (fun n => n.type == "condition") = false := by
        cases h : nodes.any (fun n => n.type == "condition")
        · rfl
        · exact absurd h hcB
      have hallC : ∀ n ∈ nodes, n.type ≠ "condition" := by
        intro n hn h
        exact hcB (List.any_eq_true.mpr ⟨n, hn, by simp [h]⟩)
      have hv : validateRule nodes = ⟨false, "Rule must have at least one condition"⟩ := by
        simp [validateRule, hisE, hcB']
      refine ⟨?_, fun h => absurd h h0, fun _ _ => by rw [hv], ?_, ?_⟩
      · rw [hv]
        exact ⟨fun _ => Or.inr (Or.inl hallC), fun _ => rfl⟩
      · rintro _ ⟨nc, hnc, hnc2⟩ _
        exact absurd hnc2 (hallC nc hnc)
      · rintro ⟨nc, hnc, hnc2⟩ _
        exact absurd hnc2 (hallC nc hnc)

/-- Witness for the validator: a condition and an action with no
connecting edge validate, instantiating the final clause. -/
theorem validateRule_characterization_witness :
    (∃ n ∈ [tempCond, fanAction], n.type = "condition")
    ∧ (∃ n ∈ [tempCond, fanAction], n.type = "action")
    ∧ validateRule [tempCond, fanAction]
        = ⟨true, "Rule validation passed!"⟩ :=
  ⟨⟨tempCond, by simp, rfl⟩, ⟨fanAction, by simp, rfl⟩,
   (validateRule_characterization [tempCond, fanAction]).2.2.2.2
     ⟨tempCond, by simp, rfl⟩ ⟨fanAction, by simp, rfl⟩⟩

end RuleEngine
